import Mathlib

/-!
Verification of the LinestringsSplitter core (src/output.cpp, src/output.hpp,
src/linestringssplitter.cpp) against its natural-language specification.

The C++ `double` values are modelled as real numbers.  Geometry layer calls
(StartTransaction, CommitTransaction, CreateFeature inside write_part) are
modelled by an environment of boolean success flags, and a run of
Output::split_linestring is a function returning either an abort
(modelling exit(1)) or the ordered trace of layer events together with the
final value of the member m_transaction_count.
-/

open Classical

namespace LS

/-- A coordinate pair: x (longitude) and y (latitude), from the parallel
x_coords / y_coords arrays of the source. -/
abbrev Point : Type := ℝ × ℝ

/-- The constant Output::PI from output.hpp line 64 (a literal, as written
in the source). -/
noncomputable def PI : ℝ := 3.14159265358979323846

/-- The constant Output::EARTH_RADIUS_IN_METERS from output.hpp line 66. -/
noncomputable def EARTH_RADIUS_IN_METERS : ℝ := 6372797.560856

/-- Output::deg_to_rad, output.cpp line 80. -/
noncomputable def deg_to_rad (degree : ℝ) : ℝ := degree * (PI / 180)

/-- Output::distance, output.cpp lines 84-93.  The first argument models the
member m_geographic_mode. -/
noncomputable def distance (geographic_mode : Bool) (lon1 lat1 lon2 lat2 : ℝ) : ℝ :=
  if geographic_mode then
    let dx := EARTH_RADIUS_IN_METERS * deg_to_rad (lon2 - lon1)
    let dy := EARTH_RADIUS_IN_METERS * deg_to_rad (lat2 - lat1)
    Real.sqrt (dx * dx + dy * dy)
  else
    Real.sqrt ((lon2 - lon1) * (lon2 - lon1) + (lat2 - lat1) * (lat2 - lat1))

/-- The sum of consecutive-point distances of a point list: the accumulation
loop of Output::skip_ring (output.cpp lines 175-178), which is also the
total internal length of an emitted part. -/
noncomputable def lineLength (geo : Bool) : List Point → ℝ
  | p :: q :: rest => distance geo p.1 p.2 q.1 q.2 + lineLength geo (q :: rest)
  | _ => 0

/-- OGRLineString::get_IsClosed as used at output.cpp line 172: the first
point equals the last point.  (On an empty linestring the OGR call reads out
of bounds; we take the empty linestring to be not closed.) -/
def IsClosedLS (pts : List Point) : Prop := pts ≠ [] ∧ pts.head? = pts.getLast?

/-- Output::skip_ring, output.cpp lines 171-180, as a proposition:
skip_ring pts holds exactly when the C++ function returns true. -/
noncomputable def skip_ring (geo : Bool) (min_length : ℝ) (pts : List Point) : Prop :=
  if IsClosedLS pts ∧ 5 < pts.length then False
  else lineLength geo pts < min_length

/-- The fields of struct Options (output.hpp lines 32-48) that the splitting
core reads.  The file-name, format and creation-option fields are I/O
plumbing and are not modelled.  The geographic flag enters through the
m_geographic_mode parameter of the functions instead. -/
structure Options where
  transaction_size : ℤ
  min_length : ℝ
  max_length : ℝ

/-- Success flags for the external layer calls: StartTransaction,
CommitTransaction, and the feature write performed by Output::write_part. -/
structure Env where
  startOk : Bool
  commitOk : Bool
  writeOk : Bool

/-- One observable call on the output layer, in program order. -/
inductive Event : Type
  | startTxn : Event
  | commitTxn : Event
  | write : List Point → Event

/-- The parts written in a trace, in order (the argument of each
Output::write_part call). -/
def writesOf : List Event → List (List Point)
  | [] => []
  | Event.write s :: rest => s :: writesOf rest
  | _ :: rest => writesOf rest

/-- One execution of lines 128-130 of output.cpp: on the first iteration
(i = 0, no previous point) the accumulator is unchanged, afterwards the
distance from the previous point is added. -/
noncomputable def stepLen (geo : Bool) (prev? : Option Point) (len : ℝ) (p : Point) : ℝ :=
  match prev? with
  | none => len
  | some q => len + distance geo q.1 q.2 p.1 p.2

/-- The point loop of Output::split_linestring, output.cpp lines 127-153,
including the trailing write of lines 151-153.

Arguments mirror the loop state: the remaining points, the previous point
(none on the first iteration, when i = 0 and no distance is added), the
accumulator length, the buffer x_coords/y_coords (as one point list), and
m_transaction_count.  The result is an abort (exit(1)) or the trace of
layer events together with the final m_transaction_count.

The commit branch reproduces line 143 literally: CommitTransaction is
called; StartTransaction is called only when the commit failed (the
short-circuit of the && operator), and exit(1) happens only when both
failed. -/
noncomputable def splitLoop (geo : Bool) (opts : Options) (env : Env) :
    List Point → Option Point → ℝ → List Point → ℤ → Except Unit (List Event × ℤ)
  | [], _, _, buf, count =>
      if 1 < buf.length then
        if env.writeOk then Except.ok ([Event.write buf], count) else Except.error ()
      else Except.ok ([], count)
  | p :: rest, prev?, len, buf, count =>
      let len' := stepLen geo prev? len p
      let buf' := buf ++ [p]
      if len' > opts.max_length then
        if env.writeOk then
          let count' := count + 1
          if count' > opts.transaction_size then
            if env.commitOk then
              (splitLoop geo opts env rest (some p) 0 [p] 0).map
                (fun r => (Event.write buf' :: Event.commitTxn :: r.1, r.2))
            else if env.startOk then
              (splitLoop geo opts env rest (some p) 0 [p] 0).map
                (fun r => (Event.write buf' :: Event.commitTxn :: Event.startTxn :: r.1, r.2))
            else Except.error ()
          else
            (splitLoop geo opts env rest (some p) 0 [p] count').map
              (fun r => (Event.write buf' :: r.1, r.2))
        else Except.error ()
      else
        splitLoop geo opts env rest (some p) len' buf' count

/-- Output::split_linestring, output.cpp lines 114-154: the ring-skip check,
the per-linestring StartTransaction when transaction_size is 0 (lines
118-123), and the point loop. -/
noncomputable def split_linestring (geo : Bool) (opts : Options) (env : Env)
    (count0 : ℤ) (pts : List Point) : Except Unit (List Event × ℤ) :=
  if skip_ring geo opts.min_length pts then Except.ok ([], count0)
  else if opts.transaction_size = 0 then
    if env.startOk then
      (splitLoop geo opts env pts none 0 [] count0).map
        (fun r => (Event.startTxn :: r.1, r.2))
    else Except.error ()
  else splitLoop geo opts env pts none 0 [] count0

/-- The pure splitting skeleton of the point loop: the threshold-triggered
parts (first component, in order) and the optional trailing part (second
component).  It follows the loop of output.cpp lines 127-153 with the
transaction bookkeeping erased; the lemma splitLoop_ok_writes connects it
to the traces of splitLoop. -/
noncomputable def splitSegsTr (geo : Bool) (maxLen : ℝ) :
    List Point → Option Point → ℝ → List Point → List (List Point) × Option (List Point)
  | [], _, _, buf => ([], if 1 < buf.length then some buf else none)
  | p :: rest, prev?, len, buf =>
      let len' := stepLen geo prev? len p
      let buf' := buf ++ [p]
      if len' > maxLen then
        let r := splitSegsTr geo maxLen rest (some p) 0 [p]
        (buf' :: r.1, r.2)
      else splitSegsTr geo maxLen rest (some p) len' buf'

/-- All parts produced by the point loop, in emission order: the
threshold-triggered parts followed by the trailing part, if any. -/
def allParts (tr : List (List Point) × Option (List Point)) : List (List Point) :=
  tr.1 ++ tr.2.toList

/-- The evolution of m_transaction_count over n threshold-triggered
emissions: each emission increments it, and it is reset to zero whenever it
exceeds the transaction size (output.cpp lines 141-148). -/
def countFold (T : ℤ) : ℤ → ℕ → ℤ
  | c, 0 => c
  | c, n + 1 => countFold T (if c + 1 > T then 0 else c + 1) n

/-- The event trace produced by the point loop when transaction_size is 0
and every layer call succeeds: every threshold-triggered write is followed
at once by a commit, and the trailing write (if any) comes last. -/
def t0Pattern (tr : List (List Point) × Option (List Point)) : List Event :=
  (tr.1.map (fun s => [Event.write s, Event.commitTxn])).flatten
    ++ (tr.2.map Event.write).toList

/-- Concatenation of split parts with the duplicated boundary points
removed: the first part in full, then each further part without its first
point. -/
def dedupConcat : List (List Point) → List Point
  | [] => []
  | s :: rest => s ++ (rest.map List.tail).flatten

/-- The environment in which every layer call succeeds. -/
def envAll : Env := ⟨true, true, true⟩

/-- The environment in which CommitTransaction fails but StartTransaction
and feature writes succeed. -/
def envCommitFail : Env := ⟨true, false, true⟩

/-! ### Basic facts about the distance metric -/

theorem distance_nonneg (geo : Bool) (lon1 lat1 lon2 lat2 : ℝ) :
    0 ≤ distance geo lon1 lat1 lon2 lat2 := by
  unfold distance
  split <;> exact Real.sqrt_nonneg _

theorem distance_symm (geo : Bool) (lon1 lat1 lon2 lat2 : ℝ) :
    distance geo lon1 lat1 lon2 lat2 = distance geo lon2 lat2 lon1 lat1 := by
  unfold distance deg_to_rad
  split <;> · congr 1; ring

theorem PI_pos : 0 < PI := by unfold PI; norm_num

theorem earth_radius_pos : 0 < EARTH_RADIUS_IN_METERS := by
  unfold EARTH_RADIUS_IN_METERS; norm_num

theorem distance_eq_zero_iff (geo : Bool) (lon1 lat1 lon2 lat2 : ℝ) :
    distance geo lon1 lat1 lon2 lat2 = 0 ↔ lon1 = lon2 ∧ lat1 = lat2 := by
  have hfac : EARTH_RADIUS_IN_METERS * (PI / 180) ≠ 0 := by
    have h1 := earth_radius_pos
    have h2 := PI_pos
    positivity
  unfold distance
  split
  · rw [Real.sqrt_eq_zero (add_nonneg (mul_self_nonneg _) (mul_self_nonneg _))]
    rw [add_eq_zero_iff_of_nonneg (mul_self_nonneg _) (mul_self_nonneg _)]
    rw [mul_self_eq_zero, mul_self_eq_zero]
    unfold deg_to_rad
    constructor
    · rintro ⟨h1, h2⟩
      have e1 : (lon2 - lon1) * (EARTH_RADIUS_IN_METERS * (PI / 180)) = 0 := by
        rw [← h1]; ring
      have e2 : (lat2 - lat1) * (EARTH_RADIUS_IN_METERS * (PI / 180)) = 0 := by
        rw [← h2]; ring
      rcases mul_eq_zero.mp e1 with h | h
      · rcases mul_eq_zero.mp e2 with h' | h'
        · exact ⟨(sub_eq_zero.mp h).symm, (sub_eq_zero.mp h').symm⟩
        · exact absurd h' hfac
      · exact absurd h hfac
    · rintro ⟨h1, h2⟩
      subst h1; subst h2
      constructor <;> · ring
  · rw [Real.sqrt_eq_zero (add_nonneg (mul_self_nonneg _) (mul_self_nonneg _))]
    rw [add_eq_zero_iff_of_nonneg (mul_self_nonneg _) (mul_self_nonneg _)]
    rw [mul_self_eq_zero, mul_self_eq_zero, sub_eq_zero, sub_eq_zero]
    constructor
    · rintro ⟨h1, h2⟩; exact ⟨h1.symm, h2.symm⟩
    · rintro ⟨h1, h2⟩; exact ⟨h1.symm, h2.symm⟩

/-- Planar distance between two points with the same x coordinate. -/
theorem distance_vert (x y1 y2 : ℝ) :
    distance false x y1 x y2 = |y2 - y1| := by
  unfold distance
  simp only [Bool.false_eq_true, if_false]
  rw [show (x - x) * (x - x) + (y2 - y1) * (y2 - y1) = (y2 - y1) * (y2 - y1) by ring]
  exact Real.sqrt_mul_self_eq_abs _

/-- Planar distance between two points with the same y coordinate. -/
theorem distance_horiz (x1 x2 y : ℝ) :
    distance false x1 y x2 y = |x2 - x1| := by
  unfold distance
  simp only [Bool.false_eq_true, if_false]
  rw [show (x2 - x1) * (x2 - x1) + (y - y) * (y - y) = (x2 - x1) * (x2 - x1) by ring]
  exact Real.sqrt_mul_self_eq_abs _

theorem lineLength_nonneg (geo : Bool) : ∀ pts : List Point, 0 ≤ lineLength geo pts
  | [] => le_refl 0
  | [_] => le_refl 0
  | p :: q :: rest => by
      rw [lineLength]
      exact add_nonneg (distance_nonneg _ _ _ _ _) (lineLength_nonneg geo (q :: rest))

theorem lineLength_concat (geo : Bool) :
    ∀ (buf : List Point) (p q : Point), buf.getLast? = some p →
      lineLength geo (buf ++ [q]) = lineLength geo buf + distance geo p.1 p.2 q.1 q.2
  | [], p, q, h => by simp at h
  | [a], p, q, h => by
      simp only [List.getLast?_singleton, Option.some.injEq] at h
      subst h
      simp [lineLength]
  | a :: b :: rest, p, q, h => by
      rw [List.getLast?_cons_cons] at h
      have ih := lineLength_concat geo (b :: rest) p q h
      simp only [List.cons_append] at ih ⊢
      rw [lineLength, lineLength]
      rw [ih]
      ring

/-- C9: the distance metric is symmetric, non-negative, and zero exactly on
equal coordinate pairs; in geographic mode it is the Euclidean norm of the
two coordinate deltas converted from degrees to radians and scaled by the
Earth radius constant 6372797.560856, and in planar mode it is the
Euclidean distance. -/
theorem C9_distance_metric (geo : Bool) (lon1 lat1 lon2 lat2 : ℝ) :
    distance geo lon1 lat1 lon2 lat2 = distance geo lon2 lat2 lon1 lat1 ∧
    0 ≤ distance geo lon1 lat1 lon2 lat2 ∧
    (distance geo lon1 lat1 lon2 lat2 = 0 ↔ lon1 = lon2 ∧ lat1 = lat2) ∧
    distance true lon1 lat1 lon2 lat2 =
      Real.sqrt ((6372797.560856 * deg_to_rad (lon2 - lon1)) ^ 2
        + (6372797.560856 * deg_to_rad (lat2 - lat1)) ^ 2) ∧
    distance false lon1 lat1 lon2 lat2 =
      Real.sqrt ((lon2 - lon1) ^ 2 + (lat2 - lat1) ^ 2) := by
  refine ⟨distance_symm _ _ _ _ _, distance_nonneg _ _ _ _ _,
    distance_eq_zero_iff _ _ _ _ _, ?_, ?_⟩
  · unfold distance EARTH_RADIUS_IN_METERS
    simp only [if_true]
    congr 1
    ring
  · unfold distance
    simp only [Bool.false_eq_true, if_false]
    congr 1
    ring

/-- Witness for C9 at a concrete input. -/
theorem C9_distance_metric_witness :
    distance false 0 0 3 4 = distance false 3 4 0 0 ∧
    (distance false 0 0 0 0 = 0 ↔ (0 : ℝ) = 0 ∧ (0 : ℝ) = 0) :=
  ⟨(C9_distance_metric false 0 0 3 4).1, (C9_distance_metric false 0 0 0 0).2.2.1⟩

/-! ### The trace of a successful run determines the written parts -/

@[simp] theorem writesOf_nil : writesOf [] = [] := rfl

@[simp] theorem writesOf_write (s : List Point) (rest : List Event) :
    writesOf (Event.write s :: rest) = s :: writesOf rest := rfl

@[simp] theorem writesOf_start (rest : List Event) :
    writesOf (Event.startTxn :: rest) = writesOf rest := rfl

@[simp] theorem writesOf_commit (rest : List Event) :
    writesOf (Event.commitTxn :: rest) = writesOf rest := rfl

/-- The parts written by a successful point loop are exactly the
threshold-triggered parts followed by the optional trailing part. -/
theorem splitLoop_ok_writes (geo : Bool) (opts : Options) (env : Env) :
    ∀ (rest : List Point) (prev? : Option Point) (len : ℝ) (buf : List Point)
      (count : ℤ) (evs : List Event) (c' : ℤ),
      splitLoop geo opts env rest prev? len buf count = Except.ok (evs, c') →
      writesOf evs = (splitSegsTr geo opts.max_length rest prev? len buf).1
        ++ ((splitSegsTr geo opts.max_length rest prev? len buf).2).toList := by
  intro rest
  induction rest with
  | nil =>
    intro prev? len buf count evs c' h
    rw [splitLoop] at h
    rw [splitSegsTr]
    by_cases hb : 1 < buf.length
    · rw [if_pos hb] at h
      rw [if_pos hb]
      by_cases hw : env.writeOk = true
      · rw [if_pos hw] at h
        simp only [Except.ok.injEq, Prod.mk.injEq] at h
        rw [← h.1]
        simp
      · rw [if_neg hw] at h
        exact absurd h (by simp)
    · rw [if_neg hb] at h
      rw [if_neg hb]
      simp only [Except.ok.injEq, Prod.mk.injEq] at h
      rw [← h.1]
      simp
  | cons p rest ih =>
    intro prev? len buf count evs c' h
    rw [splitLoop] at h
    rw [splitSegsTr]
    set len' := stepLen geo prev? len p with hlen'
    by_cases hs : len' > opts.max_length
    · rw [if_pos hs] at h
      rw [if_pos hs]
      by_cases hw : env.writeOk = true
      · rw [if_pos hw] at h
        by_cases hc : count + 1 > opts.transaction_size
        · rw [if_pos hc] at h
          by_cases hco : env.commitOk = true
          · rw [if_pos hco] at h
            cases hrec : splitLoop geo opts env rest (some p) 0 [p] 0 with
            | error e => rw [hrec] at h; exact absurd h (by simp [Except.map])
            | ok r =>
              rw [hrec] at h
              simp only [Except.map, Except.ok.injEq, Prod.mk.injEq] at h
              rw [← h.1]
              simp only [writesOf_write, writesOf_commit]
              rw [ih (some p) 0 [p] 0 r.1 r.2 (by rw [hrec])]
              simp
          · rw [if_neg hco] at h
            by_cases hst : env.startOk = true
            · rw [if_pos hst] at h
              cases hrec : splitLoop geo opts env rest (some p) 0 [p] 0 with
              | error e => rw [hrec] at h; exact absurd h (by simp [Except.map])
              | ok r =>
                rw [hrec] at h
                simp only [Except.map, Except.ok.injEq, Prod.mk.injEq] at h
                rw [← h.1]
                simp only [writesOf_write, writesOf_commit, writesOf_start]
                rw [ih (some p) 0 [p] 0 r.1 r.2 (by rw [hrec])]
                simp
            · rw [if_neg hst] at h
              exact absurd h (by simp)
        · rw [if_neg hc] at h
          cases hrec : splitLoop geo opts env rest (some p) 0 [p] (count + 1) with
          | error e => rw [hrec] at h; exact absurd h (by simp [Except.map])
          | ok r =>
            rw [hrec] at h
            simp only [Except.map, Except.ok.injEq, Prod.mk.injEq] at h
            rw [← h.1]
            simp only [writesOf_write]
            rw [ih (some p) 0 [p] (count + 1) r.1 r.2 (by rw [hrec])]
            simp
      · rw [if_neg hw] at h
        exact absurd h (by simp)
    · rw [if_neg hs] at h
      rw [if_neg hs]
      exact ih (some p) len' (buf ++ [p]) count evs c' h

/-- If the loop runs with a nonempty buffer and produces no part at all,
then there were no points left and the buffer held a single point. -/
theorem splitSegsTr_eq_nil (geo : Bool) (maxLen : ℝ) :
    ∀ (rest : List Point) (prev? : Option Point) (len : ℝ) (buf : List Point),
      buf ≠ [] → allParts (splitSegsTr geo maxLen rest prev? len buf) = [] →
      rest = [] ∧ buf.length ≤ 1 := by
  intro rest
  induction rest with
  | nil =>
    intro prev? len buf hbuf h
    rw [splitSegsTr] at h
    unfold allParts at h
    by_cases hb : 1 < buf.length
    · rw [if_pos hb] at h
      simp at h
    · exact ⟨rfl, not_lt.mp hb⟩
  | cons p rest ih =>
    intro prev? len buf hbuf h
    rw [splitSegsTr] at h
    by_cases hs : stepLen geo prev? len p > maxLen
    · rw [if_pos hs] at h
      simp [allParts] at h
    · rw [if_neg hs] at h
      have := ih (some p) (stepLen geo prev? len p) (buf ++ [p]) (by simp) h
      rcases this with ⟨-, hlen⟩
      rw [List.length_append, List.length_singleton] at hlen
      exact absurd (List.length_eq_zero.mp (by omega)) hbuf

/-- Reconstruction invariant of the point loop: the produced parts, glued
with duplicated boundary points removed, give back the buffer followed by
the remaining points; each part starts where the previous one ended. -/
theorem splitSegsTr_reconstruct (geo : Bool) (maxLen : ℝ) :
    ∀ (rest : List Point) (prev? : Option Point) (len : ℝ) (buf : List Point),
      allParts (splitSegsTr geo maxLen rest prev? len buf) = [] ∨
      ((∃ t, (allParts (splitSegsTr geo maxLen rest prev? len buf)).head? = some (buf ++ t)) ∧
       dedupConcat (allParts (splitSegsTr geo maxLen rest prev? len buf)) = buf ++ rest ∧
       List.Chain' (fun a b => a.getLast? = b.head?)
         (allParts (splitSegsTr geo maxLen rest prev? len buf))) := by
  intro rest
  induction rest with
  | nil =>
    intro prev? len buf
    rw [splitSegsTr]
    by_cases hb : 1 < buf.length
    · right
      rw [if_pos hb]
      refine ⟨⟨[], by simp [allParts]⟩, by simp [allParts, dedupConcat], ?_⟩
      simp [allParts]
    · left
      rw [if_neg hb]
      simp [allParts]
  | cons p rest ih =>
    intro prev? len buf
    rw [splitSegsTr]
    by_cases hs : stepLen geo prev? len p > maxLen
    · rw [if_pos hs]
      right
      rcases ih (some p) 0 [p] with hnil | ⟨⟨t, ht⟩, hd, hc⟩
      · have hre := splitSegsTr_eq_nil geo maxLen rest (some p) 0 [p] (by simp) hnil
        rcases hre with ⟨hrest, -⟩
        subst hrest
        unfold allParts at hnil ⊢
        simp only [List.append_eq_nil] at hnil
        rcases hnil with ⟨h1, h2⟩
        simp only [h1, h2]
        refine ⟨⟨[p], by simp⟩, ?_, ?_⟩
        · simp [dedupConcat]
        · simp
      · -- the recursive call produced at least one part
        rcases hhead : allParts (splitSegsTr geo maxLen rest (some p) 0 [p]) with _ | ⟨s, l⟩
        · rw [hhead] at ht; simp at ht
        · rw [hhead] at ht hd hc
          simp only [List.head?_cons, Option.some.injEq] at ht
          have hall : allParts ((buf ++ [p]) :: (splitSegsTr geo maxLen rest (some p) 0 [p]).1,
              (splitSegsTr geo maxLen rest (some p) 0 [p]).2)
              = (buf ++ [p]) :: allParts (splitSegsTr geo maxLen rest (some p) 0 [p]) := by
            simp [allParts]
          rw [hall, hhead]
          have hs_eq : s = p :: t := by
            rw [ht]; rfl
          subst hs_eq
          unfold dedupConcat at hd
          simp only [List.map_cons, List.flatten_cons, List.tail_cons] at hd
          -- hd : (p :: t) ++ (l.map List.tail).flatten = [p] ++ rest
          have hrest : t ++ (l.map List.tail).flatten = rest := by
            simpa using hd
          refine ⟨⟨[p], by simp⟩, ?_, ?_⟩
          · unfold dedupConcat
            simp only [List.map_cons, List.flatten_cons, List.tail_cons]
            rw [show buf ++ [p] ++ (t ++ (l.map List.tail).flatten) = buf ++ [p] ++ rest from by
              rw [hrest]]
            simp
          · refine List.Chain'.cons ?_ hc
            rw [List.getLast?_concat]
            simp
    · rw [if_neg hs]
      rcases ih (some p) (stepLen geo prev? len p) (buf ++ [p]) with hnil | ⟨⟨t, ht⟩, hd, hc⟩
      · left; exact hnil
      · right
        refine ⟨⟨[p] ++ t, by rw [ht]; simp⟩, ?_, hc⟩
        rw [hd]
        simp

/-- On a skipped linestring, split_linestring writes nothing. -/
theorem split_linestring_skip (geo : Bool) (opts : Options) (env : Env)
    (c0 : ℤ) (pts : List Point) (hsk : skip_ring geo opts.min_length pts) :
    split_linestring geo opts env c0 pts = Except.ok ([], c0) := by
  unfold split_linestring
  rw [if_pos hsk]

/-- On a non-skipped linestring, the written parts of a successful run are
exactly the parts of the pure splitting skeleton. -/
theorem split_linestring_ok_writes (geo : Bool) (opts : Options) (env : Env)
    (c0 : ℤ) (pts : List Point) (evs : List Event) (c' : ℤ)
    (hok : split_linestring geo opts env c0 pts = Except.ok (evs, c'))
    (hns : ¬ skip_ring geo opts.min_length pts) :
    writesOf evs = allParts (splitSegsTr geo opts.max_length pts none 0 []) := by
  unfold split_linestring at hok
  rw [if_neg hns] at hok
  by_cases hT : opts.transaction_size = 0
  · rw [if_pos hT] at hok
    by_cases hst : env.startOk = true
    · rw [if_pos hst] at hok
      cases hrec : splitLoop geo opts env pts none 0 [] c0 with
      | error e => rw [hrec] at hok; exact absurd hok (by simp [Except.map])
      | ok r =>
        rw [hrec] at hok
        simp only [Except.map, Except.ok.injEq, Prod.mk.injEq] at hok
        rw [← hok.1, writesOf_start]
        exact splitLoop_ok_writes geo opts env pts none 0 [] c0 r.1 r.2 (by rw [hrec])
    · rw [if_neg hst] at hok
      exact absurd hok (by simp)
  · rw [if_neg hT] at hok
    exact splitLoop_ok_writes geo opts env pts none 0 [] c0 evs c' hok

/-- C1: when a successful run of split_linestring emits at least one part,
consecutive parts share their boundary point (the last point of each part
is the first point of the next), and concatenating the parts with the
duplicated boundary points removed gives back the source point sequence. -/
theorem C1_reconstruction (geo : Bool) (opts : Options) (env : Env) (c0 : ℤ)
    (pts : List Point) (evs : List Event) (c' : ℤ)
    (hok : split_linestring geo opts env c0 pts = Except.ok (evs, c'))
    (hne : writesOf evs ≠ []) :
    List.Chain' (fun a b => a.getLast? = b.head?) (writesOf evs) ∧
    dedupConcat (writesOf evs) = pts := by
  by_cases hsk : skip_ring geo opts.min_length pts
  · rw [split_linestring_skip geo opts env c0 pts hsk] at hok
    simp only [Except.ok.injEq, Prod.mk.injEq] at hok
    rw [← hok.1] at hne
    simp at hne
  · have hw := split_linestring_ok_writes geo opts env c0 pts evs c' hok hsk
    rcases splitSegsTr_reconstruct geo opts.max_length pts none 0 [] with hnil | ⟨-, hd, hc⟩
    · rw [hw] at hne; exact absurd hnil hne
    · rw [hw]
      exact ⟨hc, by rw [hd]; simp⟩

/-! ### Evaluation of concrete runs -/

/-- When min_length is not positive, no linestring is ever skipped (a line
length is a sum of square roots, hence non-negative). -/
theorem skip_ring_false_of_min_nonpos (geo : Bool) (minL : ℝ) (pts : List Point)
    (hmin : minL ≤ 0) : ¬ skip_ring geo minL pts := by
  unfold skip_ring
  by_cases hcl : IsClosedLS pts ∧ 5 < pts.length
  · rw [if_pos hcl]
    exact not_false
  · rw [if_neg hcl]
    exact not_lt.mpr (le_trans hmin (lineLength_nonneg geo pts))

/-- Evaluation of the run on the two-point line (0,0)-(0,1) with
min_length 0 and max_length 2000: a single trailing write. -/
theorem eval_two_point :
    split_linestring false ⟨1000, 0, 2000⟩ envAll 0 [((0:ℝ), (0:ℝ)), ((0:ℝ), (1:ℝ))]
      = Except.ok ([Event.write [((0:ℝ), (0:ℝ)), ((0:ℝ), (1:ℝ))]], 0) := by
  unfold split_linestring
  rw [if_neg (skip_ring_false_of_min_nonpos false _ _ (le_refl 0))]
  rw [if_neg (by norm_num)]
  rw [splitLoop]
  simp only [stepLen]
  rw [if_neg (by norm_num)]
  rw [splitLoop]
  simp only [stepLen, distance_vert]
  rw [if_neg (by rw [show |(1:ℝ) - 0| = 1 from by norm_num]; norm_num)]
  rw [splitLoop]
  rw [if_pos (by norm_num)]
  rw [if_pos (by rfl)]
  rfl

/-- Witness for C1: the two-point run produces one part which reconstructs
the source line. -/
theorem C1_reconstruction_witness :
    List.Chain' (fun a b => a.getLast? = b.head?)
      (writesOf [Event.write [((0:ℝ), (0:ℝ)), ((0:ℝ), (1:ℝ))]]) ∧
    dedupConcat (writesOf [Event.write [((0:ℝ), (0:ℝ)), ((0:ℝ), (1:ℝ))]])
      = [((0:ℝ), (0:ℝ)), ((0:ℝ), (1:ℝ))] :=
  C1_reconstruction false ⟨1000, 0, 2000⟩ envAll 0 _ _ 0 eval_two_point (by simp)

/-- Evaluation of the run on the scenario line (0,0),(0,1000),(0,2500),(0,3000)
with max_length 2000: a split is triggered at (0,2500) (accumulated 2500),
then the remainder (0,2500),(0,3000) is written after the loop. -/
theorem eval_scenario :
    split_linestring false ⟨1000, 0, 2000⟩ envAll 0
      [((0:ℝ), (0:ℝ)), ((0:ℝ), (1000:ℝ)), ((0:ℝ), (2500:ℝ)), ((0:ℝ), (3000:ℝ))]
    = Except.ok ([Event.write [((0:ℝ), (0:ℝ)), ((0:ℝ), (1000:ℝ)), ((0:ℝ), (2500:ℝ))],
        Event.write [((0:ℝ), (2500:ℝ)), ((0:ℝ), (3000:ℝ))]], 1) := by
  unfold split_linestring
  rw [if_neg (skip_ring_false_of_min_nonpos false _ _ (le_refl 0))]
  rw [if_neg (by norm_num)]
  rw [splitLoop]
  simp only [stepLen]
  rw [if_neg (by norm_num)]
  rw [splitLoop]
  simp only [stepLen, distance_vert]
  rw [if_neg (by norm_num)]
  rw [splitLoop]
  simp only [stepLen, distance_vert]
  rw [if_pos (by norm_num)]
  rw [if_pos (by rfl)]
  rw [if_neg (by norm_num)]
  rw [splitLoop]
  simp only [stepLen, distance_vert]
  rw [if_neg (by norm_num)]
  rw [splitLoop]
  rw [if_pos (by norm_num)]
  rw [if_pos (by rfl)]
  rfl

/-- Evaluation of the run with transaction_size 0 on (0,0)-(0,3000) with
max_length 2000: the per-linestring StartTransaction, one split write, and
the commit triggered right after it (the counter 1 exceeds the size 0). -/
theorem eval_t0_commit :
    split_linestring false ⟨0, 0, 2000⟩ envAll 0 [((0:ℝ), (0:ℝ)), ((0:ℝ), (3000:ℝ))]
    = Except.ok ([Event.startTxn, Event.write [((0:ℝ), (0:ℝ)), ((0:ℝ), (3000:ℝ))],
        Event.commitTxn], 0) := by
  unfold split_linestring
  rw [if_neg (skip_ring_false_of_min_nonpos false _ _ (le_refl 0))]
  rw [if_pos rfl]
  rw [if_pos (by rfl)]
  rw [splitLoop]
  simp only [stepLen]
  rw [if_neg (by norm_num)]
  rw [splitLoop]
  simp only [stepLen, distance_vert]
  rw [if_pos (by norm_num)]
  rw [if_pos (by rfl)]
  rw [if_pos (by norm_num)]
  rw [if_pos (by rfl)]
  rw [splitLoop]
  rw [if_neg (by norm_num)]
  rfl

/-- Evaluation of the run with transaction_size 1 on
(0,0),(0,3000),(0,6000), all layer calls succeeding: two split writes; at
the second one the counter (2) exceeds the size (1), CommitTransaction is
called and succeeds, and no StartTransaction is ever issued. -/
theorem eval_t1_commit_ok :
    split_linestring false ⟨1, 0, 2000⟩ envAll 0
      [((0:ℝ), (0:ℝ)), ((0:ℝ), (3000:ℝ)), ((0:ℝ), (6000:ℝ))]
    = Except.ok ([Event.write [((0:ℝ), (0:ℝ)), ((0:ℝ), (3000:ℝ))],
        Event.write [((0:ℝ), (3000:ℝ)), ((0:ℝ), (6000:ℝ))], Event.commitTxn], 0) := by
  unfold split_linestring
  rw [if_neg (skip_ring_false_of_min_nonpos false _ _ (le_refl 0))]
  rw [if_neg (by norm_num)]
  rw [splitLoop]
  simp only [stepLen]
  rw [if_neg (by norm_num)]
  rw [splitLoop]
  simp only [stepLen, distance_vert]
  rw [if_pos (by norm_num)]
  rw [if_pos (by rfl)]
  rw [if_neg (by norm_num)]
  rw [splitLoop]
  simp only [stepLen, distance_vert]
  rw [if_pos (by norm_num)]
  rw [if_pos (by rfl)]
  rw [if_pos (by norm_num)]
  rw [if_pos (by rfl)]
  rw [splitLoop]
  rw [if_neg (by norm_num)]
  rfl

/-- Evaluation of the same run when CommitTransaction fails but
StartTransaction succeeds: the run continues (no abort) and issues the
StartTransaction right after the failed commit. -/
theorem eval_t1_commit_fail :
    split_linestring false ⟨1, 0, 2000⟩ envCommitFail 0
      [((0:ℝ), (0:ℝ)), ((0:ℝ), (3000:ℝ)), ((0:ℝ), (6000:ℝ))]
    = Except.ok ([Event.write [((0:ℝ), (0:ℝ)), ((0:ℝ), (3000:ℝ))],
        Event.write [((0:ℝ), (3000:ℝ)), ((0:ℝ), (6000:ℝ))], Event.commitTxn,
        Event.startTxn], 0) := by
  unfold split_linestring
  rw [if_neg (skip_ring_false_of_min_nonpos false _ _ (le_refl 0))]
  rw [if_neg (by norm_num)]
  rw [splitLoop]
  simp only [stepLen]
  rw [if_neg (by norm_num)]
  rw [splitLoop]
  simp only [stepLen, distance_vert]
  rw [if_pos (by norm_num)]
  rw [if_pos (by rfl)]
  rw [if_neg (by norm_num)]
  rw [splitLoop]
  simp only [stepLen, distance_vert]
  rw [if_pos (by norm_num)]
  rw [if_pos (by rfl)]
  rw [if_pos (by norm_num)]
  rw [if_neg (by simp [envCommitFail])]
  rw [if_pos (by rfl)]
  rw [splitLoop]
  rw [if_neg (by norm_num)]
  rfl

/-- Evaluation of the run with a negative max_length (-1, reachable on the
command line through the unvalidated atoi of option -M) on (0,0)-(0,1000):
the very first loop iteration already triggers a split (0 > -1) and writes
a one-point part. -/
theorem eval_neg_max :
    split_linestring false ⟨1000, 0, -1⟩ envAll 0 [((0:ℝ), (0:ℝ)), ((0:ℝ), (1000:ℝ))]
    = Except.ok ([Event.write [((0:ℝ), (0:ℝ))],
        Event.write [((0:ℝ), (0:ℝ)), ((0:ℝ), (1000:ℝ))]], 2) := by
  unfold split_linestring
  rw [if_neg (skip_ring_false_of_min_nonpos false _ _ (le_refl 0))]
  rw [if_neg (by norm_num)]
  rw [splitLoop]
  simp only [stepLen]
  rw [if_pos (by norm_num)]
  rw [if_pos (by rfl)]
  rw [if_neg (by norm_num)]
  rw [splitLoop]
  simp only [stepLen, distance_vert]
  rw [if_pos (by norm_num)]
  rw [if_pos (by rfl)]
  rw [if_neg (by norm_num)]
  rw [splitLoop]
  rw [if_neg (by norm_num)]
  rfl

/-- Evaluation of the run on the one-point linestring (0,0) with
min_length 0: it passes the ring-skip check and writes nothing. -/
theorem eval_one_point :
    split_linestring false ⟨1000, 0, 2000⟩ envAll 0 [((0:ℝ), (0:ℝ))]
      = Except.ok ([], 0) := by
  unfold split_linestring
  rw [if_neg (skip_ring_false_of_min_nonpos false _ _ (le_refl 0))]
  rw [if_neg (by norm_num)]
  rw [splitLoop]
  simp only [stepLen]
  rw [if_neg (by norm_num)]
  rw [splitLoop]
  rw [if_neg (by norm_num)]

/-- Evaluation of the run on the two-point line (0,0)-(0,5) with max_length
exactly 5: the accumulated length equals max_length, the strict comparison
does not trigger, and the whole line is emitted as a single part. -/
theorem eval_exact_max :
    split_linestring false ⟨1000, 0, 5⟩ envAll 0 [((0:ℝ), (0:ℝ)), ((0:ℝ), (5:ℝ))]
      = Except.ok ([Event.write [((0:ℝ), (0:ℝ)), ((0:ℝ), (5:ℝ))]], 0) := by
  unfold split_linestring
  rw [if_neg (skip_ring_false_of_min_nonpos false _ _ (le_refl 0))]
  rw [if_neg (by norm_num)]
  rw [splitLoop]
  simp only [stepLen]
  rw [if_neg (by norm_num)]
  rw [splitLoop]
  simp only [stepLen, distance_vert]
  rw [if_neg (by norm_num)]
  rw [splitLoop]
  rw [if_pos (by norm_num)]
  rw [if_pos (by rfl)]
  rfl

/-! ### Runs that never reach the threshold -/

theorem stepLen_none (geo : Bool) (len : ℝ) (p : Point) :
    stepLen geo none len p = len := rfl

theorem stepLen_some (geo : Bool) (len : ℝ) (p q : Point) :
    stepLen geo (some q) len p = len + distance geo q.1 q.2 p.1 p.2 := rfl

/-- If the accumulated length plus everything still ahead stays within
max_length, the loop never splits and ends with the whole stretch in the
buffer. -/
theorem splitSegsTr_no_split (geo : Bool) (maxLen : ℝ) :
    ∀ (rest : List Point) (q : Point) (len : ℝ) (buf : List Point),
      len + lineLength geo (q :: rest) ≤ maxLen →
      splitSegsTr geo maxLen rest (some q) len buf
        = ([], if 1 < (buf ++ rest).length then some (buf ++ rest) else none) := by
  intro rest
  induction rest with
  | nil =>
    intro q len buf h
    rw [splitSegsTr]
    simp
  | cons p rest ih =>
    intro q len buf h
    rw [splitSegsTr]
    rw [show lineLength geo (q :: p :: rest)
        = distance geo q.1 q.2 p.1 p.2 + lineLength geo (p :: rest) from by rw [lineLength]] at h
    have hle : stepLen geo (some q) len p + lineLength geo (p :: rest) ≤ maxLen := by
      rw [stepLen_some]
      linarith
    have hns : ¬ (stepLen geo (some q) len p > maxLen) := by
      have h0 := lineLength_nonneg geo (p :: rest)
      push_neg
      linarith
    rw [if_neg hns]
    rw [ih p (stepLen geo (some q) len p) (buf ++ [p]) hle]
    simp

/-- A linestring of at least two points whose total length stays within
max_length is kept whole by the loop: no threshold part, one trailing part
equal to the input. -/
theorem splitSegsTr_total_le (geo : Bool) (maxLen : ℝ) (pts : List Point)
    (h2 : 2 ≤ pts.length) (hlen : lineLength geo pts ≤ maxLen) :
    splitSegsTr geo maxLen pts none 0 [] = ([], some pts) := by
  cases pts with
  | nil => simp at h2
  | cons p rest =>
    rw [splitSegsTr]
    have h0 : ¬ (stepLen geo none (0:ℝ) p > maxLen) := by
      rw [stepLen_none]
      have := lineLength_nonneg geo (p :: rest)
      push_neg
      linarith
    rw [if_neg h0]
    rw [stepLen_none]
    rw [splitSegsTr_no_split geo maxLen rest p 0 ([] ++ [p]) (by simpa using hlen)]
    have hl : 1 < (([] ++ [p]) ++ rest).length := by
      simpa using h2
    rw [if_pos hl]
    simp

/-- A successful run on a non-skipped linestring of at least two points and
total length within max_length writes the linestring itself as its only
part. -/
theorem writes_single_of_short (geo : Bool) (opts : Options) (env : Env)
    (c0 : ℤ) (pts : List Point) (evs : List Event) (c' : ℤ)
    (h2 : 2 ≤ pts.length)
    (hlen : lineLength geo pts ≤ opts.max_length)
    (hns : ¬ skip_ring geo opts.min_length pts)
    (hok : split_linestring geo opts env c0 pts = Except.ok (evs, c')) :
    writesOf evs = [pts] := by
  rw [split_linestring_ok_writes geo opts env c0 pts evs c' hok hns]
  rw [splitSegsTr_total_le geo opts.max_length pts h2 hlen]
  rfl

/-- C3 (amended: the source linestring must have at least two points): a
linestring with at least two points, total length at most max_length and
not filtered by the ring-skip rule is emitted as exactly one part equal to
the source point sequence. -/
theorem C3_single_segment (geo : Bool) (opts : Options) (env : Env)
    (c0 : ℤ) (pts : List Point) (evs : List Event) (c' : ℤ)
    (h2 : 2 ≤ pts.length)
    (hlen : lineLength geo pts ≤ opts.max_length)
    (hns : ¬ skip_ring geo opts.min_length pts)
    (hok : split_linestring geo opts env c0 pts = Except.ok (evs, c')) :
    writesOf evs = [pts] :=
  writes_single_of_short geo opts env c0 pts evs c' h2 hlen hns hok

/-- Witness for C3 on the two-point line (0,0)-(0,1). -/
theorem C3_single_segment_witness :
    writesOf [Event.write [((0:ℝ), (0:ℝ)), ((0:ℝ), (1:ℝ))]]
      = [[((0:ℝ), (0:ℝ)), ((0:ℝ), (1:ℝ))]] := by
  refine C3_single_segment false ⟨1000, 0, 2000⟩ envAll 0 _ _ 0 (by simp) ?_
    (skip_ring_false_of_min_nonpos false _ _ (le_refl 0)) eval_two_point
  rw [show lineLength false [((0:ℝ), (0:ℝ)), ((0:ℝ), (1:ℝ))]
      = distance false 0 0 0 1 + lineLength false [((0:ℝ), (1:ℝ))] from by rw [lineLength]]
  rw [distance_vert]
  rw [show lineLength false [((0:ℝ), (1:ℝ))] = 0 from rfl]
  norm_num

/-- Counterexample to C3 as stated: the one-point linestring (0,0) with
min_length 0 has total length 0 (within max_length 2000) and is not
filtered by the ring-skip rule, yet the run emits no part at all. -/
theorem C3_counterexample :
    ¬ skip_ring false (0:ℝ) [((0:ℝ), (0:ℝ))] ∧
    lineLength false [((0:ℝ), (0:ℝ))] ≤ 2000 ∧
    split_linestring false ⟨1000, 0, 2000⟩ envAll 0 [((0:ℝ), (0:ℝ))]
      = Except.ok ([], 0) ∧
    writesOf [] = [] := by
  refine ⟨skip_ring_false_of_min_nonpos false 0 _ (le_refl 0), ?_, eval_one_point, rfl⟩
  rw [show lineLength false [((0:ℝ), (0:ℝ))] = 0 from rfl]
  norm_num

/-- C6: the split trigger is a strict comparison, so a line whose length
equals max_length exactly is not split (first part); on the concrete
scenario (0,0),(0,1000),(0,2500),(0,3000) with max_length 2000 the run
emits exactly the two parts [(0,0),(0,1000),(0,2500)] and
[(0,2500),(0,3000)] (second part). -/
theorem C6_strict_threshold :
    (∀ (geo : Bool) (opts : Options) (env : Env) (c0 : ℤ) (a b : Point)
        (evs : List Event) (c' : ℤ),
        distance geo a.1 a.2 b.1 b.2 = opts.max_length →
        ¬ skip_ring geo opts.min_length [a, b] →
        split_linestring geo opts env c0 [a, b] = Except.ok (evs, c') →
        writesOf evs = [[a, b]]) ∧
    split_linestring false ⟨1000, 0, 2000⟩ envAll 0
      [((0:ℝ), (0:ℝ)), ((0:ℝ), (1000:ℝ)), ((0:ℝ), (2500:ℝ)), ((0:ℝ), (3000:ℝ))]
    = Except.ok ([Event.write [((0:ℝ), (0:ℝ)), ((0:ℝ), (1000:ℝ)), ((0:ℝ), (2500:ℝ))],
        Event.write [((0:ℝ), (2500:ℝ)), ((0:ℝ), (3000:ℝ))]], 1) := by
  refine ⟨?_, eval_scenario⟩
  intro geo opts env c0 a b evs c' hdist hns hok
  refine writes_single_of_short geo opts env c0 [a, b] evs c' (by simp) ?_ hns hok
  rw [show lineLength geo [a, b]
      = distance geo a.1 a.2 b.1 b.2 + lineLength geo [b] from by rw [lineLength]]
  rw [show lineLength geo [b] = 0 from rfl]
  rw [hdist]
  simp

/-- Witness for C6: the two-point line (0,0)-(0,5) with max_length exactly
5 is emitted whole. -/
theorem C6_strict_threshold_witness :
    writesOf [Event.write [((0:ℝ), (0:ℝ)), ((0:ℝ), (5:ℝ))]]
      = [[((0:ℝ), (0:ℝ)), ((0:ℝ), (5:ℝ))]] := by
  refine C6_strict_threshold.1 false ⟨1000, 0, 5⟩ envAll 0 ((0:ℝ), (0:ℝ)) ((0:ℝ), (5:ℝ)) _ 0
    ?_ (skip_ring_false_of_min_nonpos false _ _ (le_refl 0)) eval_exact_max
  rw [distance_vert]
  norm_num

/-! ### Internal lengths of the emitted parts -/

/-- Invariant of the point loop: every threshold-triggered part is strictly
longer than max_length (the threshold is what triggered it), and the
trailing part is at most max_length long. -/
theorem splitSegsTr_lengths (geo : Bool) (maxLen : ℝ) :
    ∀ (rest : List Point) (prev? : Option Point) (len : ℝ) (buf : List Point),
      (∀ q, prev? = some q → buf.getLast? = some q) →
      (prev? = none → buf = []) →
      len = lineLength geo buf →
      (1 < buf.length → len ≤ maxLen) →
      (∀ s ∈ (splitSegsTr geo maxLen rest prev? len buf).1, maxLen < lineLength geo s) ∧
      (∀ s, (splitSegsTr geo maxLen rest prev? len buf).2 = some s →
        lineLength geo s ≤ maxLen) := by
  intro rest
  induction rest with
  | nil =>
    intro prev? len buf _ _ hlen h2
    rw [splitSegsTr]
    constructor
    · intro s hs
      simp at hs
    · intro s hs
      by_cases hb : 1 < buf.length
      · rw [if_pos hb] at hs
        simp only [Option.some.injEq] at hs
        rw [← hs, ← hlen]
        exact h2 hb
      · rw [if_neg hb] at hs
        simp at hs
  | cons p rest ih =>
    intro prev? len buf h1 h0 hlen h2
    have key : stepLen geo prev? len p = lineLength geo (buf ++ [p]) := by
      cases prev? with
      | none =>
        rw [h0 rfl] at hlen ⊢
        rw [stepLen_none, hlen]
        rfl
      | some q =>
        rw [stepLen_some, hlen]
        exact (lineLength_concat geo buf q p (h1 q rfl)).symm
    rw [splitSegsTr]
    by_cases hs : stepLen geo prev? len p > maxLen
    · rw [if_pos hs]
      have hihyp := ih (some p) 0 [p]
        (by intro q hq; injection hq with hq; rw [← hq]; rfl)
        (by intro hq; exact absurd hq (by simp))
        rfl
        (by intro hl; simp at hl)
      constructor
      · intro s hmem
        rcases List.mem_cons.mp hmem with heq | hmem'
        · rw [heq, ← key]
          exact hs
        · exact hihyp.1 s hmem'
      · exact hihyp.2
    · rw [if_neg hs]
      exact ih (some p) (stepLen geo prev? len p) (buf ++ [p])
        (by intro q hq; injection hq with hq; rw [← hq]; exact List.getLast?_concat _)
        (by intro hq; exact absurd hq (by simp))
        key
        (fun _ => not_lt.mp hs)

/-- C4 (amended: the bound is reversed relative to the claim): in a
successful run on a non-skipped linestring, the written parts are the
threshold-triggered parts followed by an optional trailing part; every
threshold-triggered part has cumulative length strictly greater than
max_length, and only the trailing part is bounded by max_length. -/
theorem C4_length_bounds (geo : Bool) (opts : Options) (env : Env)
    (c0 : ℤ) (pts : List Point) (evs : List Event) (c' : ℤ)
    (hns : ¬ skip_ring geo opts.min_length pts)
    (hok : split_linestring geo opts env c0 pts = Except.ok (evs, c')) :
    ∃ (thresh : List (List Point)) (trail : Option (List Point)),
      writesOf evs = thresh ++ trail.toList ∧
      (∀ s ∈ thresh, opts.max_length < lineLength geo s) ∧
      (∀ s ∈ trail.toList, lineLength geo s ≤ opts.max_length) := by
  have hK := splitSegsTr_lengths geo opts.max_length pts none 0 []
    (by intro q hq; exact absurd hq (by simp))
    (by intro _; rfl)
    rfl
    (by intro hl; simp at hl)
  refine ⟨(splitSegsTr geo opts.max_length pts none 0 []).1,
    (splitSegsTr geo opts.max_length pts none 0 []).2,
    split_linestring_ok_writes geo opts env c0 pts evs c' hok hns, hK.1, ?_⟩
  intro s hs
  exact hK.2 s (Option.mem_def.mp (Option.mem_toList.mp hs))

/-- Witness for C4 on the scenario run. -/
theorem C4_length_bounds_witness :
    ∃ (thresh : List (List Point)) (trail : Option (List Point)),
      writesOf [Event.write [((0:ℝ), (0:ℝ)), ((0:ℝ), (1000:ℝ)), ((0:ℝ), (2500:ℝ))],
          Event.write [((0:ℝ), (2500:ℝ)), ((0:ℝ), (3000:ℝ))]]
        = thresh ++ trail.toList ∧
      (∀ s ∈ thresh, (2000:ℝ) < lineLength false s) ∧
      (∀ s ∈ trail.toList, lineLength false s ≤ (2000:ℝ)) :=
  C4_length_bounds false ⟨1000, 0, 2000⟩ envAll 0 _ _ 1
    (skip_ring_false_of_min_nonpos false _ _ (le_refl 0)) eval_scenario

/-- Counterexample to C4 as stated: in the scenario run the first written
part is not the final trailing part, yet its cumulative length 2500 exceeds
max_length 2000. -/
theorem C4_counterexample :
    split_linestring false ⟨1000, 0, 2000⟩ envAll 0
      [((0:ℝ), (0:ℝ)), ((0:ℝ), (1000:ℝ)), ((0:ℝ), (2500:ℝ)), ((0:ℝ), (3000:ℝ))]
    = Except.ok ([Event.write [((0:ℝ), (0:ℝ)), ((0:ℝ), (1000:ℝ)), ((0:ℝ), (2500:ℝ))],
        Event.write [((0:ℝ), (2500:ℝ)), ((0:ℝ), (3000:ℝ))]], 1) ∧
    writesOf [Event.write [((0:ℝ), (0:ℝ)), ((0:ℝ), (1000:ℝ)), ((0:ℝ), (2500:ℝ))],
        Event.write [((0:ℝ), (2500:ℝ)), ((0:ℝ), (3000:ℝ))]]
      = [[((0:ℝ), (0:ℝ)), ((0:ℝ), (1000:ℝ)), ((0:ℝ), (2500:ℝ))],
         [((0:ℝ), (2500:ℝ)), ((0:ℝ), (3000:ℝ))]] ∧
    (2000:ℝ) < lineLength false [((0:ℝ), (0:ℝ)), ((0:ℝ), (1000:ℝ)), ((0:ℝ), (2500:ℝ))] := by
  refine ⟨eval_scenario, rfl, ?_⟩
  rw [lineLength, lineLength]
  rw [show lineLength false [((0:ℝ), (2500:ℝ))] = 0 from rfl]
  rw [distance_vert, distance_vert]
  norm_num

/-! ### Every emitted part has at least two points -/

/-- Invariant: once the buffer is nonempty, every part the loop goes on to
produce has at least two points. -/
theorem splitSegsTr_min_points (geo : Bool) (maxLen : ℝ) :
    ∀ (rest : List Point) (prev? : Option Point) (len : ℝ) (buf : List Point),
      buf ≠ [] →
      ∀ s ∈ allParts (splitSegsTr geo maxLen rest prev? len buf), 2 ≤ s.length := by
  intro rest
  induction rest with
  | nil =>
    intro prev? len buf hbuf s hs
    rw [splitSegsTr] at hs
    unfold allParts at hs
    by_cases hb : 1 < buf.length
    · rw [if_pos hb] at hs
      simp only [List.nil_append, Option.toList_some, List.mem_singleton] at hs
      rw [hs]
      omega
    · rw [if_neg hb] at hs
      simp at hs
  | cons p rest ih =>
    intro prev? len buf hbuf s hs
    rw [splitSegsTr] at hs
    by_cases hsplit : stepLen geo prev? len p > maxLen
    · rw [if_pos hsplit] at hs
      unfold allParts at hs
      simp only [List.cons_append, List.mem_cons] at hs
      rcases hs with heq | hmem
      · rw [heq, List.length_append, List.length_singleton]
        have := List.length_pos.mpr hbuf
        omega
      · exact ih (some p) 0 [p] (by simp) s hmem
    · rw [if_neg hsplit] at hs
      exact ih (some p) (stepLen geo prev? len p) (buf ++ [p]) (by simp) s hs

/-- C5 (amended: requires a non-negative max_length, which the command line
does not enforce): with max_length at least 0, every part written by a run
of split_linestring has at least two points. -/
theorem C5_min_points (geo : Bool) (opts : Options) (env : Env)
    (c0 : ℤ) (pts : List Point) (evs : List Event) (c' : ℤ)
    (hmax : 0 ≤ opts.max_length)
    (hok : split_linestring geo opts env c0 pts = Except.ok (evs, c')) :
    ∀ s ∈ writesOf evs, 2 ≤ s.length := by
  by_cases hsk : skip_ring geo opts.min_length pts
  · rw [split_linestring_skip geo opts env c0 pts hsk] at hok
    simp only [Except.ok.injEq, Prod.mk.injEq] at hok
    rw [← hok.1]
    simp
  · rw [split_linestring_ok_writes geo opts env c0 pts evs c' hok hsk]
    cases pts with
    | nil =>
      rw [splitSegsTr]
      rw [if_neg (by norm_num)]
      simp [allParts]
    | cons p rest =>
      rw [splitSegsTr]
      rw [if_neg (by rw [stepLen_none]; exact not_lt.mpr hmax)]
      rw [stepLen_none]
      exact splitSegsTr_min_points geo opts.max_length rest (some p) 0 ([] ++ [p]) (by simp)

/-- Witness for C5: the first scenario part has at least two points. -/
theorem C5_min_points_witness :
    2 ≤ [((0:ℝ), (0:ℝ)), ((0:ℝ), (1000:ℝ)), ((0:ℝ), (2500:ℝ))].length :=
  C5_min_points false ⟨1000, 0, 2000⟩ envAll 0 _ _ 1 (by norm_num) eval_scenario
    [((0:ℝ), (0:ℝ)), ((0:ℝ), (1000:ℝ)), ((0:ℝ), (2500:ℝ))] (by simp)

/-- Counterexample to C5 as stated (for every configuration): with the
reachable configuration max_length = -1, the run on (0,0)-(0,1000) writes
the one-point part [(0,0)]. -/
theorem C5_counterexample :
    split_linestring false ⟨1000, 0, -1⟩ envAll 0 [((0:ℝ), (0:ℝ)), ((0:ℝ), (1000:ℝ))]
      = Except.ok ([Event.write [((0:ℝ), (0:ℝ))],
          Event.write [((0:ℝ), (0:ℝ)), ((0:ℝ), (1000:ℝ))]], 2) ∧
    [((0:ℝ), (0:ℝ))] ∈ writesOf [Event.write [((0:ℝ), (0:ℝ))],
        Event.write [((0:ℝ), (0:ℝ)), ((0:ℝ), (1000:ℝ))]] ∧
    [((0:ℝ), (0:ℝ))].length < 2 :=
  ⟨eval_neg_max, by simp, by simp⟩

/-! ### The ring-skip rule -/

/-- C2: the ring-skip decision never skips a closed line with more than 5
points; otherwise it skips exactly the lines whose total length is strictly
below min_length.  In particular the closed 6-point ring
(0,0),(1,0),(2,0),(2,1),(0,1),(0,0) of length 6 (below min_length 200) is
not skipped, while the closed 4-point ring (0,0),(1,0),(1,0),(0,0) of
length 2 (below min_length 200) is skipped. -/
theorem C2_ring_skip :
    (∀ (geo : Bool) (minL : ℝ) (pts : List Point),
        IsClosedLS pts → 5 < pts.length → ¬ skip_ring geo minL pts) ∧
    (∀ (geo : Bool) (minL : ℝ) (pts : List Point),
        ¬ (IsClosedLS pts ∧ 5 < pts.length) →
        (skip_ring geo minL pts ↔ lineLength geo pts < minL)) ∧
    (IsClosedLS [((0:ℝ), (0:ℝ)), ((1:ℝ), (0:ℝ)), ((2:ℝ), (0:ℝ)), ((2:ℝ), (1:ℝ)),
        ((0:ℝ), (1:ℝ)), ((0:ℝ), (0:ℝ))] ∧
      [((0:ℝ), (0:ℝ)), ((1:ℝ), (0:ℝ)), ((2:ℝ), (0:ℝ)), ((2:ℝ), (1:ℝ)),
        ((0:ℝ), (1:ℝ)), ((0:ℝ), (0:ℝ))].length = 6 ∧
      lineLength false [((0:ℝ), (0:ℝ)), ((1:ℝ), (0:ℝ)), ((2:ℝ), (0:ℝ)), ((2:ℝ), (1:ℝ)),
        ((0:ℝ), (1:ℝ)), ((0:ℝ), (0:ℝ))] < 200 ∧
      ¬ skip_ring false 200 [((0:ℝ), (0:ℝ)), ((1:ℝ), (0:ℝ)), ((2:ℝ), (0:ℝ)), ((2:ℝ), (1:ℝ)),
        ((0:ℝ), (1:ℝ)), ((0:ℝ), (0:ℝ))]) ∧
    (IsClosedLS [((0:ℝ), (0:ℝ)), ((1:ℝ), (0:ℝ)), ((1:ℝ), (0:ℝ)), ((0:ℝ), (0:ℝ))] ∧
      [((0:ℝ), (0:ℝ)), ((1:ℝ), (0:ℝ)), ((1:ℝ), (0:ℝ)), ((0:ℝ), (0:ℝ))].length = 4 ∧
      lineLength false [((0:ℝ), (0:ℝ)), ((1:ℝ), (0:ℝ)), ((1:ℝ), (0:ℝ)), ((0:ℝ), (0:ℝ))] < 200 ∧
      skip_ring false 200 [((0:ℝ), (0:ℝ)), ((1:ℝ), (0:ℝ)), ((1:ℝ), (0:ℝ)), ((0:ℝ), (0:ℝ))]) := by
  have hlen6 : lineLength false [((0:ℝ), (0:ℝ)), ((1:ℝ), (0:ℝ)), ((2:ℝ), (0:ℝ)),
      ((2:ℝ), (1:ℝ)), ((0:ℝ), (1:ℝ)), ((0:ℝ), (0:ℝ))] = 6 := by
    rw [lineLength, lineLength, lineLength, lineLength, lineLength]
    rw [show lineLength false [((0:ℝ), (0:ℝ))] = 0 from rfl]
    rw [distance_horiz, distance_horiz, distance_vert, distance_horiz, distance_vert]
    norm_num
  have hlen4 : lineLength false [((0:ℝ), (0:ℝ)), ((1:ℝ), (0:ℝ)), ((1:ℝ), (0:ℝ)),
      ((0:ℝ), (0:ℝ))] = 2 := by
    rw [lineLength, lineLength, lineLength]
    rw [show lineLength false [((0:ℝ), (0:ℝ))] = 0 from rfl]
    rw [distance_horiz, distance_vert, distance_horiz]
    norm_num
  refine ⟨?_, ?_, ?_, ?_⟩
  · intro geo minL pts h1 h2
    unfold skip_ring
    rw [if_pos ⟨h1, h2⟩]
    exact not_false
  · intro geo minL pts h
    unfold skip_ring
    rw [if_neg h]
  · refine ⟨⟨by simp, rfl⟩, rfl, by rw [hlen6]; norm_num, ?_⟩
    unfold skip_ring
    rw [if_pos ⟨⟨by simp, rfl⟩, by simp⟩]
    exact not_false
  · refine ⟨⟨by simp, rfl⟩, rfl, by rw [hlen4]; norm_num, ?_⟩
    unfold skip_ring
    rw [if_neg (by rintro ⟨-, h⟩; simp at h)]
    rw [hlen4]
    norm_num

/-- Witness for C2: the otherwise-branch characterisation applied to the
4-point ring. -/
theorem C2_ring_skip_witness :
    skip_ring false 200 [((0:ℝ), (0:ℝ)), ((1:ℝ), (0:ℝ)), ((1:ℝ), (0:ℝ)), ((0:ℝ), (0:ℝ))] ↔
      lineLength false [((0:ℝ), (0:ℝ)), ((1:ℝ), (0:ℝ)), ((1:ℝ), (0:ℝ)), ((0:ℝ), (0:ℝ))] < 200 :=
  C2_ring_skip.2.1 false 200 _ (by rintro ⟨-, h⟩; simp at h)

/-! ### The transaction counter -/

/-- The final m_transaction_count of a successful point loop is determined
by the number of threshold-triggered emissions alone: each one increments
the counter and resets it to zero when it exceeds the transaction size. -/
theorem splitLoop_ok_count (geo : Bool) (opts : Options) (env : Env) :
    ∀ (rest : List Point) (prev? : Option Point) (len : ℝ) (buf : List Point)
      (count : ℤ) (evs : List Event) (c' : ℤ),
      splitLoop geo opts env rest prev? len buf count = Except.ok (evs, c') →
      c' = countFold opts.transaction_size count
        (splitSegsTr geo opts.max_length rest prev? len buf).1.length := by
  intro rest
  induction rest with
  | nil =>
    intro prev? len buf count evs c' h
    rw [splitLoop] at h
    rw [splitSegsTr]
    have hc : c' = count := by
      by_cases hb : 1 < buf.length
      · rw [if_pos hb] at h
        by_cases hw : env.writeOk = true
        · rw [if_pos hw] at h
          simp only [Except.ok.injEq, Prod.mk.injEq] at h
          exact h.2.symm
        · rw [if_neg hw] at h
          exact absurd h (by simp)
      · rw [if_neg hb] at h
        simp only [Except.ok.injEq, Prod.mk.injEq] at h
        exact h.2.symm
    rw [hc]
    rfl
  | cons p rest ih =>
    intro prev? len buf count evs c' h
    rw [splitLoop] at h
    rw [splitSegsTr]
    by_cases hs : stepLen geo prev? len p > opts.max_length
    · rw [if_pos hs] at h
      rw [if_pos hs]
      simp only [List.length_cons]
      rw [countFold]
      by_cases hw : env.writeOk = true
      · rw [if_pos hw] at h
        by_cases hc : count + 1 > opts.transaction_size
        · rw [if_pos hc] at h
          rw [if_pos hc]
          by_cases hco : env.commitOk = true
          · rw [if_pos hco] at h
            cases hrec : splitLoop geo opts env rest (some p) 0 [p] 0 with
            | error e => rw [hrec] at h; exact absurd h (by simp [Except.map])
            | ok r =>
              rw [hrec] at h
              simp only [Except.map, Except.ok.injEq, Prod.mk.injEq] at h
              rw [← h.2]
              exact ih (some p) 0 [p] 0 r.1 r.2 (by rw [hrec])
          · rw [if_neg hco] at h
            by_cases hst : env.startOk = true
            · rw [if_pos hst] at h
              cases hrec : splitLoop geo opts env rest (some p) 0 [p] 0 with
              | error e => rw [hrec] at h; exact absurd h (by simp [Except.map])
              | ok r =>
                rw [hrec] at h
                simp only [Except.map, Except.ok.injEq, Prod.mk.injEq] at h
                rw [← h.2]
                exact ih (some p) 0 [p] 0 r.1 r.2 (by rw [hrec])
            · rw [if_neg hst] at h
              exact absurd h (by simp)
        · rw [if_neg hc] at h
          rw [if_neg hc]
          cases hrec : splitLoop geo opts env rest (some p) 0 [p] (count + 1) with
          | error e => rw [hrec] at h; exact absurd h (by simp [Except.map])
          | ok r =>
            rw [hrec] at h
            simp only [Except.map, Except.ok.injEq, Prod.mk.injEq] at h
            rw [← h.2]
            exact ih (some p) 0 [p] (count + 1) r.1 r.2 (by rw [hrec])
      · rw [if_neg hw] at h
        exact absurd h (by simp)
    · rw [if_neg hs] at h
      rw [if_neg hs]
      exact ih (some p) (stepLen geo prev? len p) (buf ++ [p]) count evs c' h

/-- Lifting of splitLoop_ok_count through split_linestring. -/
theorem split_linestring_ok_count (geo : Bool) (opts : Options) (env : Env)
    (c0 : ℤ) (pts : List Point) (evs : List Event) (c' : ℤ)
    (hok : split_linestring geo opts env c0 pts = Except.ok (evs, c'))
    (hns : ¬ skip_ring geo opts.min_length pts) :
    c' = countFold opts.transaction_size c0
      (splitSegsTr geo opts.max_length pts none 0 []).1.length := by
  unfold split_linestring at hok
  rw [if_neg hns] at hok
  by_cases hT : opts.transaction_size = 0
  · rw [if_pos hT] at hok
    by_cases hst : env.startOk = true
    · rw [if_pos hst] at hok
      cases hrec : splitLoop geo opts env pts none 0 [] c0 with
      | error e => rw [hrec] at hok; exact absurd hok (by simp [Except.map])
      | ok r =>
        rw [hrec] at hok
        simp only [Except.map, Except.ok.injEq, Prod.mk.injEq] at hok
        rw [← hok.2]
        exact splitLoop_ok_count geo opts env pts none 0 [] c0 r.1 r.2 (by rw [hrec])
    · rw [if_neg hst] at hok
      exact absurd hok (by simp)
  · rw [if_neg hT] at hok
    exact splitLoop_ok_count geo opts env pts none 0 [] c0 evs c' hok

/-- C10: in a successful run on a non-skipped linestring, the final
m_transaction_count is a function of the number of threshold-triggered
emissions only (increment, reset on exceeding the batch size), and the
written parts are those threshold parts followed by at most one trailing
part, which does not contribute to the counter. -/
theorem C10_counter_ignores_trailing (geo : Bool) (opts : Options) (env : Env)
    (c0 : ℤ) (pts : List Point) (evs : List Event) (c' : ℤ)
    (hns : ¬ skip_ring geo opts.min_length pts)
    (hok : split_linestring geo opts env c0 pts = Except.ok (evs, c')) :
    c' = countFold opts.transaction_size c0
      (splitSegsTr geo opts.max_length pts none 0 []).1.length ∧
    ∃ trail : Option (List Point),
      writesOf evs = (splitSegsTr geo opts.max_length pts none 0 []).1 ++ trail.toList :=
  ⟨split_linestring_ok_count geo opts env c0 pts evs c' hok hns,
    ⟨(splitSegsTr geo opts.max_length pts none 0 []).2,
      split_linestring_ok_writes geo opts env c0 pts evs c' hok hns⟩⟩

/-- Witness for C10 on the scenario run. -/
theorem C10_counter_ignores_trailing_witness :
    (1 : ℤ) = countFold 1000 0
      (splitSegsTr false 2000
        [((0:ℝ), (0:ℝ)), ((0:ℝ), (1000:ℝ)), ((0:ℝ), (2500:ℝ)), ((0:ℝ), (3000:ℝ))]
        none 0 []).1.length ∧
    ∃ trail : Option (List Point),
      writesOf [Event.write [((0:ℝ), (0:ℝ)), ((0:ℝ), (1000:ℝ)), ((0:ℝ), (2500:ℝ))],
          Event.write [((0:ℝ), (2500:ℝ)), ((0:ℝ), (3000:ℝ))]]
        = (splitSegsTr false 2000
            [((0:ℝ), (0:ℝ)), ((0:ℝ), (1000:ℝ)), ((0:ℝ), (2500:ℝ)), ((0:ℝ), (3000:ℝ))]
            none 0 []).1 ++ trail.toList :=
  C10_counter_ignores_trailing false ⟨1000, 0, 2000⟩ envAll 0 _ _ 1
    (skip_ring_false_of_min_nonpos false _ _ (le_refl 0)) eval_scenario

/-! ### Transaction behaviour with batch size 0 -/

/-- With transaction_size 0 and succeeding layer calls, the point loop
commits right after every threshold-triggered write (the counter 1 exceeds
the size 0 at once), and the final counter is 0 as soon as one split
happened. -/
theorem splitLoop_t0_trace (geo : Bool) (opts : Options) (env : Env)
    (hT : opts.transaction_size = 0) (hw : env.writeOk = true) (hco : env.commitOk = true) :
    ∀ (rest : List Point) (prev? : Option Point) (len : ℝ) (buf : List Point) (count : ℤ),
      0 ≤ count →
      splitLoop geo opts env rest prev? len buf count
        = Except.ok (t0Pattern (splitSegsTr geo opts.max_length rest prev? len buf),
            if (splitSegsTr geo opts.max_length rest prev? len buf).1 = [] then count else 0) := by
  intro rest
  induction rest with
  | nil =>
    intro prev? len buf count _
    rw [splitLoop, splitSegsTr]
    by_cases hb : 1 < buf.length
    · rw [if_pos hb, if_pos hw, if_pos hb]
      simp [t0Pattern]
    · rw [if_neg hb, if_neg hb]
      simp [t0Pattern]
  | cons p rest ih =>
    intro prev? len buf count hcount
    rw [splitLoop, splitSegsTr]
    by_cases hs : stepLen geo prev? len p > opts.max_length
    · rw [if_pos hs, if_pos hs, if_pos hw]
      rw [if_pos (by rw [hT]; omega)]
      rw [if_pos hco]
      rw [ih (some p) 0 [p] 0 (le_refl 0)]
      simp [t0Pattern, Except.map]
    · rw [if_neg hs, if_neg hs]
      exact ih (some p) (stepLen geo prev? len p) (buf ++ [p]) count hcount

/-- C7 (amended: with batch size 0 a transaction is indeed opened once per
linestring after the ring-skip check, but intermediate commits do occur:
every threshold-triggered write is immediately followed by a commit,
because the incremented counter 1 exceeds the batch size 0). -/
theorem C7_t0_per_linestring (geo : Bool) (opts : Options) (env : Env)
    (c0 : ℤ) (pts : List Point)
    (hT : opts.transaction_size = 0) (hw : env.writeOk = true)
    (hco : env.commitOk = true) (hst : env.startOk = true) (hc0 : 0 ≤ c0)
    (hns : ¬ skip_ring geo opts.min_length pts) :
    split_linestring geo opts env c0 pts
      = Except.ok (Event.startTxn :: t0Pattern (splitSegsTr geo opts.max_length pts none 0 []),
          if (splitSegsTr geo opts.max_length pts none 0 []).1 = [] then c0 else 0) := by
  unfold split_linestring
  rw [if_neg hns, if_pos hT, if_pos hst]
  rw [splitLoop_t0_trace geo opts env hT hw hco pts none 0 [] c0 hc0]
  rfl

/-- Witness for C7 on the run (0,0)-(0,3000) with batch size 0. -/
theorem C7_t0_per_linestring_witness :
    split_linestring false ⟨0, 0, 2000⟩ envAll 0 [((0:ℝ), (0:ℝ)), ((0:ℝ), (3000:ℝ))]
      = Except.ok (Event.startTxn :: t0Pattern (splitSegsTr false (⟨0, 0, 2000⟩ : Options).max_length
            [((0:ℝ), (0:ℝ)), ((0:ℝ), (3000:ℝ))] none 0 []),
          if (splitSegsTr false (⟨0, 0, 2000⟩ : Options).max_length
              [((0:ℝ), (0:ℝ)), ((0:ℝ), (3000:ℝ))] none 0 []).1 = [] then 0 else 0) :=
  C7_t0_per_linestring false ⟨0, 0, 2000⟩ envAll 0 _ rfl rfl rfl rfl (le_refl 0)
    (skip_ring_false_of_min_nonpos false _ _ (le_refl 0))

/-- Counterexample to C7 as stated: with batch size 0 the run on
(0,0)-(0,3000) performs a CommitTransaction during splitting (right after
its single threshold-triggered write), so commits do not wait for
finalize. -/
theorem C7_counterexample :
    split_linestring false ⟨0, 0, 2000⟩ envAll 0 [((0:ℝ), (0:ℝ)), ((0:ℝ), (3000:ℝ))]
      = Except.ok ([Event.startTxn, Event.write [((0:ℝ), (0:ℝ)), ((0:ℝ), (3000:ℝ))],
          Event.commitTxn], 0) ∧
    Event.commitTxn ∈ [Event.startTxn, Event.write [((0:ℝ), (0:ℝ)), ((0:ℝ), (3000:ℝ))],
        Event.commitTxn] :=
  ⟨eval_t0_commit, by simp⟩

/-! ### The commit-then-reopen slip (output.cpp line 143) -/

/-- C8: the code at output.cpp line 143 reads
if (CommitTransaction() != OGRERR_NONE and-also StartTransaction() != OGRERR_NONE),
so when the commit succeeds the short-circuit skips StartTransaction
entirely (no new transaction is opened, first conjunct), and when the
commit fails but StartTransaction succeeds the run continues instead of
aborting (second conjunct).  Both behaviours contradict the specified
commit-then-reopen-or-abort contract; the error message at line 144 shows
the reopen was intended. -/
theorem C8_commit_shortcircuit :
    (split_linestring false ⟨1, 0, 2000⟩ envAll 0
        [((0:ℝ), (0:ℝ)), ((0:ℝ), (3000:ℝ)), ((0:ℝ), (6000:ℝ))]
      = Except.ok ([Event.write [((0:ℝ), (0:ℝ)), ((0:ℝ), (3000:ℝ))],
          Event.write [((0:ℝ), (3000:ℝ)), ((0:ℝ), (6000:ℝ))], Event.commitTxn], 0) ∧
      Event.startTxn ∉ [Event.write [((0:ℝ), (0:ℝ)), ((0:ℝ), (3000:ℝ))],
          Event.write [((0:ℝ), (3000:ℝ)), ((0:ℝ), (6000:ℝ))], Event.commitTxn]) ∧
    split_linestring false ⟨1, 0, 2000⟩ envCommitFail 0
        [((0:ℝ), (0:ℝ)), ((0:ℝ), (3000:ℝ)), ((0:ℝ), (6000:ℝ))]
      = Except.ok ([Event.write [((0:ℝ), (0:ℝ)), ((0:ℝ), (3000:ℝ))],
          Event.write [((0:ℝ), (3000:ℝ)), ((0:ℝ), (6000:ℝ))], Event.commitTxn,
          Event.startTxn], 0) :=
  ⟨⟨eval_t1_commit_ok, by simp⟩, eval_t1_commit_fail⟩

end LS
